import Mathlib

/-!
Verification of the fm-webhooks request pipeline.

The development embeds, as total Lean functions, the pieces of the service
that carry decision logic:

* the result-normalization stage of `runFmScript` (src/fmClient.js, the
  variant kept in `src/unnamed/part_001`, lines 33-64): descending into the
  decoded FileMaker response, extracting candidate `body`/`httpCode` fields,
  string-to-JSON reparsing, and validation of the candidate status;
* the `/hooks/:endpoint` webhook handler of src/index.js (the variant kept
  in `src/unnamed/part_000`, lines 139-215): audit pre-insert, the
  `other-hooks` branch, the FileMaker call, audit post-update, response
  assembly, and the catch-all error branch;
* the single-segment redirect route (`src/unnamed/part_000`, lines 218-224);
* the Prometheus-style metrics of the metrics-bearing index.js variant
  (kept in the repository file `src/Dockerfile`, lines 356-572): counters
  and the fixed-bucket latency histogram.

JavaScript values decoded from JSON are modelled by `JSVal`; JS `undefined`
is modelled by `Option.none` at property-access sites.  JS numbers are
modelled exactly by `Dec`, signed decimals `mant / 10 ^ scale` in canonical
form — every number `JSON.parse` can produce is such a decimal, and every
arithmetic step the service performs on numbers is exact on them.  `NaN`
is folded into `Option.none` at `Number(...)` coercion sites (`Infinity`
too: like `NaN` it fails the `Number.isInteger` test, which is the only
use the service makes of coerced numbers).
-/

namespace FmWebhooks

/-! ## Exact decimal numbers -/

/-- Canonical form: no trailing factor of ten left in the denominator. -/
def isCanon (m : ℤ) (s : ℕ) : Bool := s == 0 || decide (m % 10 ≠ 0)

/-- A JS number, exactly: the value `mant / 10 ^ scale`, kept canonical so
that structural equality is numeric equality. -/
structure Dec where
  mant : ℤ
  scale : ℕ
  canon : isCanon mant scale = true
  deriving Repr

instance : DecidableEq Dec := fun a b =>
  decidable_of_iff (a.mant = b.mant ∧ a.scale = b.scale) (by cases a; cases b; simp)

/-- Strip factors of ten shared by the mantissa and the denominator. -/
def decNormAux : ℤ → ℕ → ℤ × ℕ
  | m, 0 => (m, 0)
  | m, s + 1 => if m % 10 = 0 then decNormAux (m / 10) s else (m, s + 1)

theorem decNormAux_canon : ∀ (m : ℤ) (s : ℕ),
    isCanon (decNormAux m s).1 (decNormAux m s).2 = true
  | m, 0 => by simp [decNormAux, isCanon]
  | m, s + 1 => by
      rw [decNormAux]
      split
      · exact decNormAux_canon (m / 10) s
      · simp [isCanon]
        omega

/-- The decimal `m / 10 ^ s`, normalized. -/
def Dec.mk' (m : ℤ) (s : ℕ) : Dec :=
  ⟨(decNormAux m s).1, (decNormAux m s).2, decNormAux_canon m s⟩

/-- `10 ^ n` in ℤ. -/
def tenPowZ (n : ℕ) : ℤ := ((10 ^ n : ℕ) : ℤ)

/-- Numeric `≤` on decimals (cross-multiplied; denominators positive). -/
def Dec.ble (a b : Dec) : Bool :=
  a.mant * tenPowZ b.scale ≤ b.mant * tenPowZ a.scale

/-- The integer `n` as a decimal. -/
def Dec.ofInt (n : ℤ) : Dec := Dec.mk' n 0

/-- A JavaScript value as produced by `JSON.parse` / `await resp.json()`:
null, booleans, numbers, strings, arrays and plain objects (an object is
its fields in insertion order; `JSON.parse` keeps, for a repeated key, the
first position and the last value, which the parser below reproduces). -/
inductive JSVal : Type
  | null
  | bool (b : Bool)
  | num (d : Dec)
  | str (s : String)
  | arr (elems : List JSVal)
  | obj (fields : List (String × JSVal))
  deriving Repr

mutual

/-- Boolean structural equality on `JSVal`. -/
def JSVal.beq : JSVal → JSVal → Bool
  | .null, .null => true
  | .bool a, .bool b => a == b
  | .num a, .num b => a == b
  | .str a, .str b => a == b
  | .arr xs, .arr ys => JSVal.beqList xs ys
  | .obj fs, .obj gs => JSVal.beqFields fs gs
  | _, _ => false

/-- Elementwise `JSVal.beq` on element lists. -/
def JSVal.beqList : List JSVal → List JSVal → Bool
  | [], [] => true
  | x :: xs, y :: ys => JSVal.beq x y && JSVal.beqList xs ys
  | _, _ => false

/-- Elementwise `JSVal.beq` on field lists. -/
def JSVal.beqFields : List (String × JSVal) → List (String × JSVal) → Bool
  | [], [] => true
  | (k, v) :: fs, (k2, v2) :: gs => k = k2 && JSVal.beq v v2 && JSVal.beqFields fs gs
  | _, _ => false

end

mutual

theorem JSVal.beq_iff : ∀ a b : JSVal, JSVal.beq a b = true ↔ a = b
  | .null, b => by cases b <;> simp [JSVal.beq]
  | .bool a, b => by cases b <;> simp [JSVal.beq]
  | .num a, b => by cases b <;> simp [JSVal.beq]
  | .str a, b => by cases b <;> simp [JSVal.beq]
  | .arr xs, b => by
      cases b with
      | arr ys => simp only [JSVal.beq, JSVal.beqList_iff xs ys, JSVal.arr.injEq]
      | _ => simp [JSVal.beq]
  | .obj fs, b => by
      cases b with
      | obj gs => simp only [JSVal.beq, JSVal.beqFields_iff fs gs, JSVal.obj.injEq]
      | _ => simp [JSVal.beq]

theorem JSVal.beqList_iff : ∀ xs ys : List JSVal, JSVal.beqList xs ys = true ↔ xs = ys
  | [], ys => by cases ys <;> simp [JSVal.beqList]
  | x :: xs, ys => by
      cases ys with
      | nil => simp [JSVal.beqList]
      | cons y ys =>
        simp only [JSVal.beqList, Bool.and_eq_true]
        rw [JSVal.beq_iff, JSVal.beqList_iff]
        simp

theorem JSVal.beqFields_iff :
    ∀ fs gs : List (String × JSVal), JSVal.beqFields fs gs = true ↔ fs = gs
  | [], gs => by cases gs <;> simp [JSVal.beqFields]
  | (k, v) :: fs, gs => by
      cases gs with
      | nil => simp [JSVal.beqFields]
      | cons p gs =>
        cases p with
        | mk k2 v2 =>
          simp only [JSVal.beqFields, Bool.and_eq_true, decide_eq_true_eq,
            JSVal.beq_iff v v2, JSVal.beqFields_iff fs gs, List.cons.injEq,
            Prod.mk.injEq, and_assoc]

end

instance : DecidableEq JSVal := fun a b =>
  decidable_of_iff (JSVal.beq a b = true) (JSVal.beq_iff a b)

/-! ## Property access and nullish coalescing -/

/-- First binding of key `k` in a field list (the parser keeps keys unique). -/
def lookupField : List (String × JSVal) → String → Option JSVal
  | [], _ => none
  | (k2, v) :: fs, k => if k2 = k then some v else lookupField fs k

/-- JS property read `v[k]`: `none` models `undefined`.  Reading a property
off a primitive or an array yields `undefined` for the property names this
service uses. -/
def getField : JSVal → String → Option JSVal
  | .obj fs, k => lookupField fs k
  | _, _ => none

/-- Optional chaining `o?.k` applied to an intermediate value: `undefined`
(and `null`) short-circuit to `undefined`. -/
def chainField (o : Option JSVal) (k : String) : Option JSVal :=
  match o with
  | none => none
  | some .null => none
  | some v => getField v k

/-- Nullish coalescing `a ?? b` where both sides may be `undefined`. -/
def orNullish (a b : Option JSVal) : Option JSVal :=
  match a with
  | none => b
  | some .null => b
  | some v => some v

/-- Nullish coalescing `a ?? b` with a present fallback. -/
def jsOr (a : Option JSVal) (b : JSVal) : JSVal :=
  match a with
  | none => b
  | some .null => b
  | some v => v

/-- Object-spread field update `{...fs, k: v}` (an existing key keeps its
position and gets the new value; a new key is appended). -/
def setField (fs : List (String × JSVal)) (k : String) (v : JSVal) : List (String × JSVal) :=
  if (lookupField fs k).isSome then
    fs.map (fun p => if p.1 = k then (k, v) else p)
  else fs ++ [(k, v)]

/-! ## `Number(...)` coercion -/

/-- Value of a hexadecimal digit. -/
def hexDigit? (c : Char) : Option ℕ :=
  if '0' ≤ c ∧ c ≤ '9' then some (c.toNat - 48)
  else if 'a' ≤ c ∧ c ≤ 'f' then some (c.toNat - 87)
  else if 'A' ≤ c ∧ c ≤ 'F' then some (c.toNat - 55)
  else none

/-- Read a run of decimal digits: accumulated value, count read, rest. -/
def readDigits : List Char → ℕ → ℕ → ℕ × ℕ × List Char
  | [], acc, cnt => (acc, cnt, [])
  | c :: rest, acc, cnt =>
    if c.isDigit then readDigits rest (10 * acc + (c.toNat - 48)) (cnt + 1)
    else (acc, cnt, c :: rest)

/-- The decimal `±(base / 10 ^ fcnt) · 10 ^ e` assembled from the pieces of
a numeric literal (`base` is the digits of the integer and fraction parts
run together, `fcnt` the number of fraction digits). -/
def decOfParts (neg : Bool) (base : ℕ) (fcnt : ℕ) (e : ℤ) : Dec :=
  let m : ℤ := if neg then -(base : ℤ) else (base : ℤ)
  if 0 ≤ e then Dec.mk' (m * tenPowZ e.toNat) fcnt
  else Dec.mk' m (fcnt + (-e).toNat)

/-- Exponent suffix `e±digits` / `E±digits`; absent means exponent `0`;
present but malformed means `NaN` (`none`). -/
def parseExp (cs : List Char) : Option (ℤ × List Char) :=
  match cs with
  | 'e' :: rest | 'E' :: rest =>
    let (sgn, rest1) : ℤ × List Char :=
      match rest with
      | '+' :: r => (1, r)
      | '-' :: r => (-1, r)
      | _ => (1, rest)
    let (d, n, rest2) := readDigits rest1 0 0
    if n = 0 then none else some (sgn * (d : ℤ), rest2)
  | _ => some (0, cs)

/-- Digits in base `b` (for the `0x`/`0o`/`0b` numeric-string prefixes). -/
def readBaseAux (b : ℕ) : List Char → ℕ → Option ℕ
  | [], acc => some acc
  | c :: rest, acc =>
    match hexDigit? c with
    | some d => if d < b then readBaseAux b rest (b * acc + d) else none
    | none => none

/-- A non-empty all-digits string in base `b`, as a decimal. -/
def readBase (b : ℕ) (cs : List Char) : Option Dec :=
  match cs with
  | [] => none
  | _ => (readBaseAux b cs 0).map (fun n => Dec.mk' (n : ℤ) 0)

/-- The decimal part of the `Number(string)` grammar: optional sign,
digits with optional fraction (at least one digit overall, so `.5` and
`5.` pass), optional exponent, nothing trailing.  `Infinity` is folded
into `none` (see the header comment). -/
def parseDecNumber (cs : List Char) : Option Dec :=
  let (neg, cs1) : Bool × List Char :=
    match cs with
    | '-' :: rest => (true, rest)
    | '+' :: rest => (false, rest)
    | _ => (false, cs)
  if cs1 = ['I', 'n', 'f', 'i', 'n', 'i', 't', 'y'] then none
  else
    let (ip, icnt, cs2) := readDigits cs1 0 0
    let (f, fcnt, cs3) : ℕ × ℕ × List Char :=
      match cs2 with
      | '.' :: rest => readDigits rest 0 0
      | _ => (0, 0, cs2)
    if icnt = 0 ∧ fcnt = 0 then none
    else
      match parseExp cs3 with
      | none => none
      | some (e, cs4) =>
        if cs4 = [] then some (decOfParts neg (ip * 10 ^ fcnt + f) fcnt e) else none

/-- JS `Number(string)`: trim, empty means `0`, radix prefixes, else the
decimal grammar; anything else is `NaN` (`none`).  (`String.trim` removes
ASCII whitespace; JS also trims a few Unicode spaces, which no input
below contains.) -/
def strToNumber (s : String) : Option Dec :=
  match trimChars s.data with
  | [] => some (Dec.ofInt 0)
  | '0' :: 'x' :: rest => readBase 16 rest
  | '0' :: 'X' :: rest => readBase 16 rest
  | '0' :: 'o' :: rest => readBase 8 rest
  | '0' :: 'O' :: rest => readBase 8 rest
  | '0' :: 'b' :: rest => readBase 2 rest
  | '0' :: 'B' :: rest => readBase 2 rest
  | cs => parseDecNumber cs
where
  /-- Leading/trailing ASCII whitespace removal. -/
  trimChars (cs : List Char) : List Char :=
    (dropWs (dropWs cs.reverse).reverse)
  /-- Drop leading whitespace. -/
  dropWs : List Char → List Char
    | c :: cs => if c = ' ' ∨ c = '\t' ∨ c = '\n' ∨ c = '\r' then dropWs cs else c :: cs
    | [] => []

/-- JS `Number(v)` on JSON-decoded values.  Arrays coerce through their
joined string form: `[]` gives `0` and a singleton coerces like its
element (a singleton `null`, number or string; other singletons and
longer arrays give `NaN`, as does any plain object).  No decoded response
in the theorems below carries an array or object `httpCode`. -/
def jsNumber : JSVal → Option Dec
  | .null => some (Dec.ofInt 0)
  | .bool b => some (Dec.ofInt (if b then 1 else 0))
  | .num d => some d
  | .str s => strToNumber s
  | .arr [] => some (Dec.ofInt 0)
  | .arr [.null] => some (Dec.ofInt 0)
  | .arr [.num d] => some d
  | .arr [.str s] => strToNumber s
  | .arr _ => none
  | .obj _ => none

/-! ## `JSON.parse` -/

/-- Skip JSON whitespace. -/
def skipWs : List Char → List Char
  | c :: cs => if c = ' ' ∨ c = '\t' ∨ c = '\n' ∨ c = '\r' then skipWs cs else c :: cs
  | [] => []

/-- Body of a JSON string after the opening quote: plain characters,
escapes, and `\uXXXX`; control characters are rejected, as `JSON.parse`
does. -/
def parseJStringAux : List Char → List Char → Option (String × List Char)
  | acc, '\x22' :: rest => some (String.mk acc.reverse, rest)
  | acc, '\\' :: 'u' :: h1 :: h2 :: h3 :: h4 :: rest =>
    (match hexDigit? h1, hexDigit? h2, hexDigit? h3, hexDigit? h4 with
     | some a, some b, some c, some d =>
       parseJStringAux (Char.ofNat (((a * 16 + b) * 16 + c) * 16 + d) :: acc) rest
     | _, _, _, _ => none)
  | acc, '\\' :: e :: rest =>
    (match e with
     | '\x22' => parseJStringAux ('\x22' :: acc) rest
     | '\\' => parseJStringAux ('\\' :: acc) rest
     | '/' => parseJStringAux ('/' :: acc) rest
     | 'b' => parseJStringAux ('\x08' :: acc) rest
     | 'f' => parseJStringAux ('\x0c' :: acc) rest
     | 'n' => parseJStringAux ('\n' :: acc) rest
     | 'r' => parseJStringAux ('\r' :: acc) rest
     | 't' => parseJStringAux ('\t' :: acc) rest
     | _ => none)
  | acc, c :: rest => if c.toNat < 32 then none else parseJStringAux (c :: acc) rest
  | _, [] => none

/-- A JSON number: optional minus, integer part without leading zeros,
optional fraction, optional exponent. -/
def parseJNumber (cs : List Char) : Option (Dec × List Char) :=
  let (neg, cs1) : Bool × List Char :=
    match cs with
    | '-' :: rest => (true, rest)
    | _ => (false, cs)
  let (ip, icnt, cs2) := readDigits cs1 0 0
  if icnt = 0 then none
  else if 1 < icnt ∧ cs1.head? = some '0' then none
  else
    match cs2 with
    | '.' :: rest =>
      let (f, fcnt, cs3) := readDigits rest 0 0
      if fcnt = 0 then none
      else
        (parseExp cs3).map (fun p => (decOfParts neg (ip * 10 ^ fcnt + f) fcnt p.1, p.2))
    | _ =>
      (parseExp cs2).map (fun p => (decOfParts neg ip 0 p.1, p.2))

mutual

/-- Fuelled JSON value parser.  The fuel only bounds recursion depth; with
the fuel `jsonParse` supplies it never runs out on an input the grammar
accepts. -/
def parseVal : ℕ → List Char → Option (JSVal × List Char)
  | 0, _ => none
  | fuel + 1, cs =>
    match skipWs cs with
    | '\x7b' :: rest =>
      (match skipWs rest with
       | '\x7d' :: rest2 => some (.obj [], rest2)
       | rest2 => parseMembers fuel rest2 [])
    | '[' :: rest =>
      (match skipWs rest with
       | ']' :: rest2 => some (.arr [], rest2)
       | rest2 => parseElems fuel rest2 [])
    | '\x22' :: rest => (parseJStringAux [] rest).map (fun p => (.str p.1, p.2))
    | 't' :: 'r' :: 'u' :: 'e' :: rest => some (.bool true, rest)
    | 'f' :: 'a' :: 'l' :: 's' :: 'e' :: rest => some (.bool false, rest)
    | 'n' :: 'u' :: 'l' :: 'l' :: rest => some (.null, rest)
    | rest => (parseJNumber rest).map (fun p => (.num p.1, p.2))

/-- Members of a JSON object after `{` (non-empty case): repeated keys keep
the first position and the last value, as in JS. -/
def parseMembers : ℕ → List Char → List (String × JSVal) → Option (JSVal × List Char)
  | 0, _, _ => none
  | fuel + 1, cs, acc =>
    match skipWs cs with
    | '\x22' :: rest =>
      (match parseJStringAux [] rest with
       | none => none
       | some (k, rest1) =>
         match skipWs rest1 with
         | ':' :: rest2 =>
           (match parseVal fuel rest2 with
            | none => none
            | some (v, rest3) =>
              let acc2 := setField acc k v
              match skipWs rest3 with
              | ',' :: rest4 => parseMembers fuel rest4 acc2
              | '\x7d' :: rest4 => some (.obj acc2, rest4)
              | _ => none)
         | _ => none)
    | _ => none

/-- Elements of a JSON array after `[` (non-empty case). -/
def parseElems : ℕ → List Char → List JSVal → Option (JSVal × List Char)
  | 0, _, _ => none
  | fuel + 1, cs, acc =>
    match parseVal fuel cs with
    | none => none
    | some (v, rest) =>
      match skipWs rest with
      | ',' :: rest2 => parseElems fuel rest2 (acc ++ [v])
      | ']' :: rest2 => some (.arr (acc ++ [v]), rest2)
      | _ => none

end

/-- `JSON.parse`: the whole (whitespace-padded) string must be one JSON
value; `none` models the thrown `SyntaxError`. -/
def jsonParse (s : String) : Option JSVal :=
  match parseVal (s.length + 2) s.data with
  | some (v, rest) => if skipWs rest = [] then some v else none
  | none => none

/-! ## The result normalization stage of `runFmScript`
(src/unnamed/part_001, lines 33-64.)

`runFmScript` issues the outbound call, decodes the response body, and then
normalizes.  The normalization stage is a pure function of the decoded body
`fmBody` and the transport status `fmResp.status`; it is embedded here with
the outbound I/O abstracted away. -/

/-- `fmBody?.scriptResult?.resultParameter ?? fmBody?.scriptResult?.code ??
fmBody?.scriptResult ?? fmBody`. -/
def resultText (fmBody : JSVal) : JSVal :=
  let sr := chainField (some fmBody) "scriptResult"
  jsOr (orNullish (orNullish (chainField sr "resultParameter") (chainField sr "code")) sr)
    fmBody

/-- The candidate status `httpCode = Number(resultText.httpCode)`, assigned
only when `typeof resultText === "object" && resultText !== null` (arrays
satisfy that test too, but have no `httpCode` property, so they coerce
`undefined` to `NaN` exactly as the non-object branch leaves `httpCode`
undefined; both are `none` here). -/
def fmHttpCodeCand : JSVal → Option Dec
  | .obj fs =>
    (match lookupField fs "httpCode" with
     | some v => jsNumber v
     | none => none)
  | _ => none

/-- The candidate body `resultText.body ?? resultText` in the object branch,
and `resultText` itself otherwise (for an array, `resultText.body` is
`undefined`, so both branches agree on the whole value). -/
def fmBodyCandidate : JSVal → JSVal
  | .obj fs => jsOr (lookupField fs "body") (.obj fs)
  | v => v

/-- `result`: a string candidate body is `JSON.parse`d, the `SyntaxError`
caught and the raw string kept; a non-string passes through. -/
def fmParseBody : JSVal → JSVal
  | .str s => (jsonParse s).getD (.str s)
  | v => v

/-- `finalStatus`: the candidate is accepted only when
`Number.isInteger(httpCode) && httpCode >= 100 && httpCode < 600`;
otherwise the transport status is used. -/
def fmFinalStatus (cand : Option Dec) (transport : ℤ) : ℤ :=
  match cand with
  | some d => if d.scale = 0 ∧ 100 ≤ d.mant ∧ d.mant < 600 then d.mant else transport
  | none => transport

/-- The normalization stage of `runFmScript`: decoded response body and
transport-level status in, `{ status, body }` out. -/
def runFmScript (fmBody : JSVal) (transportStatus : ℤ) : ℤ × JSVal :=
  let rt := resultText fmBody
  (fmFinalStatus (fmHttpCodeCand rt) transportStatus, fmParseBody (fmBodyCandidate rt))

/-- `JSON.parse` with the thrown `SyntaxError` made explicit. -/
def jsonParseExc (s : String) : Except String JSVal :=
  match jsonParse s with
  | some v => .ok v
  | none => .error "Unexpected token in JSON"

/-- The `try { JSON.parse } catch` of the normalization stage with exception
propagation made explicit: the only throwing operation is `JSON.parse`, and
its exception is caught and discarded. -/
def fmParseBodyExc : JSVal → Except String JSVal
  | .str s =>
    (match jsonParseExc s with
     | .ok v => .ok v
     | .error _ => .ok (.str s))
  | v => .ok v

/-- The normalization stage with exception propagation made explicit. -/
def runFmScriptExc (fmBody : JSVal) (transportStatus : ℤ) : Except String (ℤ × JSVal) :=
  match fmParseBodyExc (fmBodyCandidate (resultText fmBody)) with
  | .error e => .error e
  | .ok body =>
    .ok (fmFinalStatus (fmHttpCodeCand (resultText fmBody)) transportStatus, body)

/-! ## The `/hooks/:endpoint` handler
(src/unnamed/part_000, lines 139-215.)

The handler is embedded as a function of the request data, the outcome of
the single `runFmScript` call (`ok` with the normalized `{status, body}`,
or `error` with the thrown message), and the behaviour of the optional
MySQL audit store.  Serialization of the assembled payload object
(`JSON.stringify(payloadObj)`) is abstracted as the input `scriptParam`.
Audit queries are recorded as attempted operations, in order. -/

/-- An attempted audit-store operation.  `durationMs` records what the
UPDATE statement writes besides `response` and `http_code`; the statement
in this handler has no such column, so the field is always `none` here (it
exists so that the claim about writing a duration is statable). -/
inductive DbOp : Type
  | insert (source endpoint payload request_id : String)
  | update (response : JSVal) (http_code : ℤ) (durationMs : Option ℤ) (rowId : ℕ)
  deriving DecidableEq, Repr

/-- Outcome of the audit pre-insert: no pool configured, a thrown (and
caught) query error, or success returning `insertId`. -/
inductive PreWrite : Type
  | noPool
  | fail
  | ok (insertId : ℕ)
  deriving DecidableEq, Repr

/-- Whether a MySQL pool is configured. -/
def poolPresent : PreWrite → Bool
  | .noPool => false
  | _ => true

/-- `insertedId = result.insertId || null` (`0` is falsy), and `null` when
the pre-insert failed or no pool exists. -/
def insertedId : PreWrite → Option ℕ
  | .noPool => none
  | .fail => none
  | .ok id => if id = 0 then none else some id

/-- Behaviour of the audit store during one call: the pre-insert outcome
and whether an attempted post-update throws (the handler catches it). -/
structure AuditEnv : Type where
  pre : PreWrite
  postFails : Bool
  deriving DecidableEq, Repr

/-- One inbound call as the handler sees it. -/
structure HookInput : Type where
  endpoint : String
  requestId : String
  sourceHost : String
  /-- `JSON.stringify(payloadObj)` — the serialized request payload. -/
  scriptParam : String
  /-- Result of `await runFmScript(scriptParam)` when that call is reached:
  the normalized `{status, body}`, or the thrown error's message. -/
  fmOutcome : Except String (ℤ × JSVal)

/-- What one call produces: the caller-visible response, the `X-Request-Id`
header when one is set, the number of `runFmScript` calls made, and the
audit operations attempted. -/
structure HookResult : Type where
  status : ℤ
  body : JSVal
  header : Option String
  fmCalls : ℕ
  dbOps : List DbOp
  deriving DecidableEq, Repr

/-- `bodyOut`: an object (or array — also `typeof "object"` and truthy)
gets `requestId` spread in; `null` falls to `{status: "ok", requestId}`;
any other primitive passes through. -/
def bodyOut (finalResponse : JSVal) (requestId : String) : JSVal :=
  match finalResponse with
  | .obj fs => .obj (setField fs "requestId" (.str requestId))
  | .arr xs =>
    .obj (setField ((xs.enum.map fun p => (toString p.1, p.2))) "requestId" (.str requestId))
  | .null => .obj [("status", .str "ok"), ("requestId", .str requestId)]
  | v => v

/-- The static body of the `other-hooks` branch. -/
def otherHooksBody (endpoint : String) : JSVal :=
  .obj [("status", .str "ok"), ("channel", .str endpoint),
        ("note", .str "Handled by other-hooks branch")]

/-- The `/hooks/:endpoint` handler of src/unnamed/part_000. -/
def handleHook (inp : HookInput) (env : AuditEnv) : HookResult :=
  let preOps : List DbOp :=
    if poolPresent env.pre then
      [.insert inp.sourceHost inp.endpoint inp.scriptParam inp.requestId]
    else []
  let iid := insertedId env.pre
  let branch : Except String (ℤ × JSVal) × ℕ :=
    if inp.endpoint = "other-hooks" then (.ok (200, otherHooksBody inp.endpoint), 0)
    else (inp.fmOutcome, 1)
  match branch with
  | (.ok (finalStatus, finalResponse), calls) =>
    let postOps : List DbOp :=
      match iid with
      | some id =>
        if poolPresent env.pre then [.update finalResponse finalStatus none id] else []
      | none => []
    { status := if finalStatus = 0 then 200 else finalStatus
      body := bodyOut finalResponse inp.requestId
      header := some inp.requestId
      fmCalls := calls
      dbOps := preOps ++ postOps }
  | (.error msg, calls) =>
    let postOps : List DbOp :=
      match iid with
      | some id =>
        if poolPresent env.pre then
          [.update (.obj [("error", .str msg)]) 500 none id]
        else []
      | none => []
    { status := 500
      body := .obj [("error", .str msg)]
      header := none
      fmCalls := calls
      dbOps := preOps ++ postOps }

/-! ## The single-segment redirect route
(src/unnamed/part_000, lines 218-224.) -/

/-- `split("?")` on characters: the segments between the `?` marks. -/
def splitQM : List Char → List Char → List String
  | [], acc => [String.mk acc.reverse]
  | '?' :: rest, acc => String.mk acc.reverse :: splitQM rest []
  | c :: rest, acc => splitQM rest (c :: acc)

/-- `req.originalUrl.split("?")[1]`: the text between the first and second
`?`, or `undefined` when the URL has no `?`. -/
def redirectQuery (originalUrl : String) : Option String :=
  (splitQM originalUrl.data []).get? 1

/-- What the redirect route produces. -/
structure RedirectResult : Type where
  status : ℤ
  location : String
  fmCalls : ℕ
  dbOps : List DbOp
  deriving DecidableEq, Repr

/-- The `app.post("/:endpoint")` default route: a 307 redirect to
`/hooks/<endpoint>`, re-attaching the query string when it is non-empty
(an empty string is falsy in JS). -/
def handleDefaultRoute (endpoint originalUrl : String) : RedirectResult :=
  let query := redirectQuery originalUrl
  let redirectUrl :=
    "/hooks/" ++ endpoint ++
      (match query with
       | some q => if q = "" then "" else "?" ++ q
       | none => "")
  { status := 307, location := redirectUrl, fmCalls := 0, dbOps := [] }

/-! ## Metrics
(the metrics-bearing index.js variant, repository file src/Dockerfile,
lines 356-572.)

The `/hooks` handler of src/unnamed/part_000 keeps no metrics; the
repository's metrics implementation is the `app.post("*")` handler of the
index.js variant stored in src/Dockerfile.  Its per-call metric effects
are embedded as a step function on the metrics state. -/

/-- The process-wide metrics object. -/
structure Metrics : Type where
  requestCount : ℕ
  fmCallCount : ℕ
  fmErrorCount : ℕ
  httpStatusCounts : List (ℤ × ℕ)
  latencyHistogram : List ℕ
  deriving DecidableEq, Repr

/-- `latencyBuckets` (seconds): 0.01, 0.05, 0.1, 0.25, 0.5, 1, 2, 5, 10. -/
def latencyBuckets : List Dec :=
  [Dec.mk' 1 2, Dec.mk' 5 2, Dec.mk' 1 1, Dec.mk' 25 2, Dec.mk' 5 1,
   Dec.ofInt 1, Dec.ofInt 2, Dec.ofInt 5, Dec.ofInt 10]

/-- Metrics at process start. -/
def initialMetrics : Metrics :=
  { requestCount := 0, fmCallCount := 0, fmErrorCount := 0,
    httpStatusCounts := [], latencyHistogram := List.replicate 9 0 }

/-- Index of the first bucket whose bound is `≥ s`. -/
def firstBucket (s : Dec) : List Dec → Option ℕ
  | [] => none
  | b :: bs => if Dec.ble s b then some 0 else (firstBucket s bs).map (· + 1)

/-- Increment the entry at index `i`. -/
def incAt : List ℕ → ℕ → List ℕ
  | [], _ => []
  | h :: hs, 0 => (h + 1) :: hs
  | h :: hs, n + 1 => h :: incAt hs n

/-- Increment the last entry (the code reuses the final bucket as the
overflow bucket). -/
def incLast : List ℕ → List ℕ
  | [] => []
  | [h] => [h + 1]
  | h :: hs => h :: incLast hs

/-- `observeLatency(seconds)`: bump the first bucket that holds the value,
or the last bucket on overflow. -/
def observeLatency (s : Dec) (hist : List ℕ) : List ℕ :=
  match firstBucket s latencyBuckets with
  | some i => incAt hist i
  | none => incLast hist

/-- `metrics.httpStatusCounts[code] = (… || 0) + 1`. -/
def bumpStatus : List (ℤ × ℕ) → ℤ → List (ℤ × ℕ)
  | [], code => [(code, 1)]
  | (c, n) :: rest, code =>
    if c = code then (c, n + 1) :: rest else (c, n) :: bumpStatus rest code

/-- One admitted call, as the metrics see it: the `other-hooks` branch, a
completed FileMaker call (with its final status), or a FileMaker call whose
`await` threw (the catch branch).  The latency is the observed elapsed
time; it is unused on the failure branch, which never reaches
`observeLatency`. -/
inductive MCall : Type
  | otherHooks (latency : Dec)
  | fmSuccess (finalStatus : ℤ) (latency : Dec)
  | fmFail
  deriving Repr

/-- The metric increments of one admitted call: `requestCount++` at
admission; `fmCallCount++` before a FileMaker call; on the success path
`observeLatency` and the status counter; on the catch path only
`fmErrorCount++`. -/
def metricsStep (m : Metrics) (c : MCall) : Metrics :=
  let m1 := { m with requestCount := m.requestCount + 1 }
  match c with
  | .otherHooks s =>
    { m1 with latencyHistogram := observeLatency s m1.latencyHistogram,
              httpStatusCounts := bumpStatus m1.httpStatusCounts 200 }
  | .fmSuccess code s =>
    { m1 with fmCallCount := m1.fmCallCount + 1,
              latencyHistogram := observeLatency s m1.latencyHistogram,
              httpStatusCounts := bumpStatus m1.httpStatusCounts code }
  | .fmFail =>
    { m1 with fmCallCount := m1.fmCallCount + 1,
              fmErrorCount := m1.fmErrorCount + 1 }

/-- The metrics after a sequence of admitted calls. -/
def runMetrics (calls : List MCall) : Metrics :=
  calls.foldl metricsStep initialMetrics

/-- Total of the histogram entries (every entry starts at zero, so this is
the number of increments ever applied). -/
def histSum (m : Metrics) : ℕ := m.latencyHistogram.sum

/-- Whether a call reaches the `FAILED` (catch) branch. -/
def isFailCall : MCall → Bool
  | .fmFail => true
  | _ => false

/-- Calls that reached the catch branch. -/
def failedCount (calls : List MCall) : ℕ := (calls.filter isFailCall).length

/-- Calls that completed without a local fault (including `other-hooks`). -/
def completedCount (calls : List MCall) : ℕ :=
  (calls.filter fun c => !isFailCall c).length

/-! ## Helper lemmas -/

/-- Catching the parse error and catching nothing agree. -/
theorem fmParseBodyExc_ok (v : JSVal) : fmParseBodyExc v = .ok (fmParseBody v) := by
  cases v <;> simp only [fmParseBodyExc, fmParseBody]
  next s =>
    cases h : jsonParse s <;> simp [jsonParseExc, h]

/-- The normalization stage, with its let-binding spelled out. -/
theorem runFmScript_eq (fmBody : JSVal) (st : ℤ) :
    runFmScript fmBody st =
      (fmFinalStatus (fmHttpCodeCand (resultText fmBody)) st,
       fmParseBody (fmBodyCandidate (resultText fmBody))) := rfl

/-- The caller-visible part of a handler result. -/
def visibleOutcome (r : HookResult) : ℤ × JSVal × Option String :=
  (r.status, r.body, r.header)

/-- Whether an audit operation is an UPDATE that writes a duration. -/
def updateWritesDuration : DbOp → Bool
  | .update _ _ d _ => d.isSome
  | .insert _ _ _ _ => false

theorem length_incAt : ∀ (hs : List ℕ) (i : ℕ), (incAt hs i).length = hs.length
  | [], _ => rfl
  | _ :: _, 0 => rfl
  | _ :: hs, n + 1 => by simp [incAt, length_incAt hs n]

theorem sum_incAt : ∀ (hs : List ℕ) (i : ℕ), i < hs.length → (incAt hs i).sum = hs.sum + 1
  | [], i, h => by simp at h
  | h :: hs, 0, _ => by simp [incAt]; omega
  | h :: hs, n + 1, hlt => by
      simp only [incAt, List.sum_cons]
      rw [sum_incAt hs n (by simpa using hlt)]
      omega

theorem length_incLast : ∀ hs : List ℕ, (incLast hs).length = hs.length
  | [] => rfl
  | [_] => rfl
  | _ :: h2 :: hs => by simp [incLast, length_incLast (h2 :: hs)]

theorem sum_incLast : ∀ hs : List ℕ, hs ≠ [] → (incLast hs).sum = hs.sum + 1
  | [], hne => absurd rfl hne
  | [h], _ => by simp [incLast]
  | h :: h2 :: hs, _ => by
      simp only [incLast, List.sum_cons]
      rw [sum_incLast (h2 :: hs) (by simp)]
      simp only [List.sum_cons]
      omega

theorem firstBucket_lt :
    ∀ (s : Dec) (bs : List Dec) (i : ℕ), firstBucket s bs = some i → i < bs.length
  | s, [], i, h => by simp [firstBucket] at h
  | s, b :: bs, i, h => by
      simp only [firstBucket] at h
      split at h
      · cases h
        simp only [List.length_cons]
        omega
      · cases hfb : firstBucket s bs with
        | none =>
          rw [hfb, Option.map_none'] at h
          cases h
        | some j =>
          rw [hfb, Option.map_some'] at h
          cases h
          have := firstBucket_lt s bs j hfb
          simp only [List.length_cons]
          omega

theorem length_observe (s : Dec) (hs : List ℕ) :
    (observeLatency s hs).length = hs.length := by
  unfold observeLatency
  cases firstBucket s latencyBuckets
  · simp [length_incLast]
  · simp [length_incAt]

theorem sum_observe (s : Dec) (hs : List ℕ) (h9 : hs.length = 9) :
    (observeLatency s hs).sum = hs.sum + 1 := by
  unfold observeLatency
  cases hfb : firstBucket s latencyBuckets with
  | none =>
    apply sum_incLast
    intro h
    rw [h] at h9
    simp at h9
  | some i =>
    apply sum_incAt
    have hlt := firstBucket_lt s latencyBuckets i hfb
    have hlb : latencyBuckets.length = 9 := rfl
    omega

theorem metricsStep_spec (m : Metrics) (c : MCall) (h9 : m.latencyHistogram.length = 9) :
    (metricsStep m c).requestCount = m.requestCount + 1 ∧
    (metricsStep m c).fmErrorCount = m.fmErrorCount + (if isFailCall c then 1 else 0) ∧
    histSum (metricsStep m c) = histSum m + (if isFailCall c then 0 else 1) ∧
    (metricsStep m c).latencyHistogram.length = 9 := by
  cases c <;>
    simp [metricsStep, isFailCall, histSum, sum_observe _ _ h9, length_observe, h9]

theorem runMetricsAux (calls : List MCall) :
    ∀ m : Metrics, m.latencyHistogram.length = 9 →
      (calls.foldl metricsStep m).requestCount = m.requestCount + calls.length ∧
      (calls.foldl metricsStep m).fmErrorCount = m.fmErrorCount + failedCount calls ∧
      histSum (calls.foldl metricsStep m) = histSum m + completedCount calls ∧
      (calls.foldl metricsStep m).latencyHistogram.length = 9 := by
  induction calls with
  | nil => intro m h9; simp [failedCount, completedCount, h9]
  | cons c rest ih =>
    intro m h9
    obtain ⟨h1, h2, h3, h4⟩ := metricsStep_spec m c h9
    obtain ⟨g1, g2, g3, g4⟩ := ih (metricsStep m c) h4
    rw [List.foldl_cons]
    refine ⟨?_, ?_, ?_, g4⟩
    · rw [g1, h1]
      simp
      omega
    · rw [g2, h2]
      cases hc : isFailCall c
      all_goals simp [failedCount, List.filter_cons, hc]
      all_goals omega
    · rw [g3, h3]
      cases hc : isFailCall c
      all_goals simp [completedCount, List.filter_cons, hc]
      all_goals omega

theorem completed_add_failed (calls : List MCall) :
    completedCount calls + failedCount calls = calls.length := by
  induction calls with
  | nil => rfl
  | cons c rest ih =>
    cases hc : isFailCall c
    all_goals simp [completedCount, failedCount, List.filter_cons, hc] at ih ⊢
    all_goals omega

/-! ## Concrete inputs used by counterexamples and witnesses -/

/-- Scenario A's raw decoded response: the outcome is a JSON-in-string
under `scriptResult.resultParameter`. -/
def scenarioA : JSVal :=
  .obj [("scriptResult", .obj [("resultParameter",
    .str "\x7b\"body\":\x7b\"ok\":true\x7d,\"httpCode\":201\x7d")])]

/-- A decoded response whose descended value carries `httpCode` but no
`body`. -/
def respC6 : JSVal := .obj [("scriptResult", .obj [("httpCode", .num (Dec.ofInt 201))])]

/-- A decoded response whose candidate body is a non-JSON string next to a
valid `httpCode`. -/
def respC7 : JSVal :=
  .obj [("scriptResult", .obj [("body", .str "plain text"), ("httpCode", .num (Dec.ofInt 201))])]

/-- A call to the reserved `other-hooks` channel. -/
def inputD : HookInput :=
  { endpoint := "other-hooks", requestId := "rid-1", sourceHost := "h",
    scriptParam := "sp", fmOutcome := .ok (200, .null) }

/-- A completed call to an ordinary endpoint. -/
def inputC3 : HookInput :=
  { endpoint := "contact-verify", requestId := "rid-2", sourceHost := "src",
    scriptParam := "sp2", fmOutcome := .ok (201, .obj [("done", .bool true)]) }

/-- An audit environment with a successful pre-insert returning row 5. -/
def envOk5 : AuditEnv := ⟨.ok 5, false⟩

/-! ## The claims -/

/-- C1 (counterexample): on Scenario A's response with transport status
200, the normalization stage does NOT return `(201, {"ok": true})` — the
JSON-in-string is parsed, but its inner `body`/`httpCode` fields are not
extracted, because field extraction happens before string reparsing. -/
theorem c1_counterexample :
    runFmScript scenarioA 200 ≠ (201, .obj [("ok", .bool true)]) ∧
    runFmScript scenarioA 200 =
      (200, .obj [("body", .obj [("ok", .bool true)]), ("httpCode", .num (Dec.ofInt 201))]) := by
  decide

/-- C1 (amended): when the descended result value is a string that parses
as JSON, the parsed value becomes the whole normalized body and the status
is the transport status — the inner `body`/`httpCode` fields of the parsed
object are not re-extracted.  On Scenario A this yields
`(200, {"body": {"ok": true}, "httpCode": 201})`, not `(201, {"ok": true})`. -/
theorem c1_amended (fmBody : JSVal) (st : ℤ) (s : String) (v : JSVal)
    (hrt : resultText fmBody = .str s) (hp : jsonParse s = some v) :
    runFmScript fmBody st = (st, v) := by
  unfold runFmScript
  rw [hrt]
  simp [fmHttpCodeCand, fmBodyCandidate, fmParseBody, fmFinalStatus, hp]

/-- C1 (witness): the amended statement applied to Scenario A. -/
theorem c1_amended_witness :
    runFmScript scenarioA 200 =
      (200, .obj [("body", .obj [("ok", .bool true)]), ("httpCode", .num (Dec.ofInt 201))]) :=
  c1_amended scenarioA 200
    "\x7b\"body\":\x7b\"ok\":true\x7d,\"httpCode\":201\x7d"
    (.obj [("body", .obj [("ok", .bool true)]), ("httpCode", .num (Dec.ofInt 201))])
    (by decide) (by decide)

/-- C5: the normalization stage accepts a candidate status only when it is
an integer in `[100, 599]`: a candidate that is present but not such an
integer (so `99`, `600`, a non-numeric string — any rejected value) falls
back to the transport status, an absent candidate falls back to the
transport status, and whenever the normalized status differs from the
transport status the candidate was an accepted integer in range. -/
theorem c5_statusValidation (fmBody : JSVal) (st : ℤ) :
    (∀ d : Dec, fmHttpCodeCand (resultText fmBody) = some d →
      ¬(d.scale = 0 ∧ 100 ≤ d.mant ∧ d.mant < 600) → (runFmScript fmBody st).1 = st) ∧
    (fmHttpCodeCand (resultText fmBody) = none → (runFmScript fmBody st).1 = st) ∧
    ((runFmScript fmBody st).1 ≠ st → ∃ d : Dec,
      fmHttpCodeCand (resultText fmBody) = some d ∧
      d.scale = 0 ∧ 100 ≤ d.mant ∧ d.mant < 600 ∧ (runFmScript fmBody st).1 = d.mant) := by
  have hfst : (runFmScript fmBody st).1 = fmFinalStatus (fmHttpCodeCand (resultText fmBody)) st :=
    rfl
  refine ⟨?_, ?_, ?_⟩
  · intro d hd hrej
    rw [hfst, hd]
    simp [fmFinalStatus, hrej]
  · intro hd
    rw [hfst, hd]
    rfl
  · intro hne
    rw [hfst] at hne ⊢
    cases hd : fmHttpCodeCand (resultText fmBody) with
    | none =>
      rw [hd] at hne
      exact absurd rfl hne
    | some d =>
      rw [hd] at hne
      by_cases hacc : d.scale = 0 ∧ 100 ≤ d.mant ∧ d.mant < 600
      · exact ⟨d, rfl, hacc.1, hacc.2.1, hacc.2.2, by simp [fmFinalStatus, hacc]⟩
      · simp [fmFinalStatus, hacc] at hne

/-- C6 (counterexample): for a descended object carrying `httpCode: 201`
and no `body` field, the claim predicts that no candidate status is taken
(normalized status 200, the transport status); the code takes the
candidate status anyway and returns 201. -/
theorem c6_counterexample :
    runFmScript respC6 200 = (201, .obj [("httpCode", .num (Dec.ofInt 201))]) ∧
    (runFmScript respC6 200).1 ≠ 200 := by
  decide

/-- C6 (amended): for a descended object, the `body` and `httpCode`
extractions are independent: an object with a valid `httpCode` and no
`body` field still supplies the candidate status, while the whole object
becomes the candidate body. -/
theorem c6_amended (fmBody : JSVal) (st : ℤ) (fs : List (String × JSVal)) (d : Dec)
    (hrt : resultText fmBody = .obj fs)
    (hnb : lookupField fs "body" = none)
    (hcode : fmHttpCodeCand (.obj fs) = some d)
    (hacc : d.scale = 0 ∧ 100 ≤ d.mant ∧ d.mant < 600) :
    runFmScript fmBody st = (d.mant, fmParseBody (.obj fs)) := by
  rw [runFmScript_eq, hrt, hcode]
  simp [fmBodyCandidate, fmFinalStatus, hacc, hnb, jsOr]

/-- C6 (witness): the amended statement applied to the counterexample
response. -/
theorem c6_amended_witness :
    runFmScript respC6 200 =
      ((Dec.ofInt 201).mant, fmParseBody (.obj [("httpCode", .num (Dec.ofInt 201))])) :=
  c6_amended respC6 200 [("httpCode", .num (Dec.ofInt 201))] (Dec.ofInt 201)
    (by decide) (by decide) (by decide) (by decide)

/-- C7 (counterexample): a candidate body that is a non-JSON string need
not degrade to the TRANSPORT status: when the descended object also
carries a valid `httpCode`, that candidate status is used — here
`(201, "plain text")`, not `(200, "plain text")`. -/
theorem c7_counterexample :
    fmBodyCandidate (resultText respC7) = .str "plain text" ∧
    jsonParse "plain text" = none ∧
    runFmScript respC7 200 = (201, .str "plain text") ∧
    runFmScript respC7 200 ≠ (200, .str "plain text") := by
  decide

/-- C7 (amended): the normalization stage never raises — with the
`JSON.parse` exception made explicit it returns `ok` on every decoded
response — and a candidate body that is a non-JSON string is kept as the
raw string, the status falling back to the transport status whenever no
candidate `httpCode` is present (a valid candidate, when present, is still
used). -/
theorem c7_totality (fmBody : JSVal) (st : ℤ) :
    runFmScriptExc fmBody st = .ok (runFmScript fmBody st) ∧
    (∀ s : String, fmBodyCandidate (resultText fmBody) = .str s → jsonParse s = none →
      (runFmScript fmBody st).2 = .str s ∧
      (fmHttpCodeCand (resultText fmBody) = none → runFmScript fmBody st = (st, .str s))) := by
  constructor
  · unfold runFmScriptExc runFmScript
    rw [fmParseBodyExc_ok]
  · intro s hbc hp
    have h2 : (runFmScript fmBody st).2 = fmParseBody (fmBodyCandidate (resultText fmBody)) :=
      rfl
    constructor
    · rw [h2, hbc]
      simp [fmParseBody, hp]
    · intro hc
      rw [runFmScript_eq, hbc, hc]
      simp [fmFinalStatus, fmParseBody, hp]

/-! Claims about the `/hooks/:endpoint` handler. -/

/-- C4 (counterexample): a call to the handler with endpoint `other-hooks`
is accepted and answered, yet performs zero outbound invocations — not
exactly one. -/
theorem c4_counterexample :
    (handleHook inputD envOk5).fmCalls = 0 ∧ (handleHook inputD envOk5).fmCalls ≠ 1 := by
  decide

/-- C4 (amended): for every accepted call dispatched to the remote branch
(endpoint other than `other-hooks`), exactly one outbound invocation
attempt occurs — regardless of its outcome, so never zero and never two —
and the pre-write (when a pool is present) records exactly the `requestId`
that is sent back; the `X-Request-Id` header carries that id when the
invocation completes, and no header is set on the failure branch. -/
theorem c4_amended (inp : HookInput) (env : AuditEnv)
    (h : inp.endpoint ≠ "other-hooks") :
    (handleHook inp env).fmCalls = 1 ∧
    (∀ p : ℤ × JSVal, inp.fmOutcome = .ok p →
      (handleHook inp env).header = some inp.requestId) ∧
    (∀ msg : String, inp.fmOutcome = .error msg → (handleHook inp env).header = none) ∧
    (poolPresent env.pre = true →
      (handleHook inp env).dbOps.head? =
        some (.insert inp.sourceHost inp.endpoint inp.scriptParam inp.requestId)) := by
  cases hfo : inp.fmOutcome with
  | ok p =>
    cases p with
    | mk fs fb =>
      refine ⟨by simp [handleHook, h, hfo], by simp [handleHook, h, hfo],
        by simp [handleHook, h, hfo], ?_⟩
      intro hpool
      simp [handleHook, h, hfo, hpool]
  | error msg =>
    refine ⟨by simp [handleHook, h, hfo], by simp [handleHook, h, hfo],
      by simp [handleHook, h, hfo], ?_⟩
    intro hpool
    simp [handleHook, h, hfo, hpool]

/-- C4 (witness): the amended statement applied to a completed call. -/
theorem c4_amended_witness :
    (handleHook inputC3 envOk5).fmCalls = 1 ∧
    (∀ p : ℤ × JSVal, inputC3.fmOutcome = .ok p →
      (handleHook inputC3 envOk5).header = some inputC3.requestId) ∧
    (∀ msg : String, inputC3.fmOutcome = .error msg →
      (handleHook inputC3 envOk5).header = none) ∧
    (poolPresent envOk5.pre = true →
      (handleHook inputC3 envOk5).dbOps.head? =
        some (.insert inputC3.sourceHost inputC3.endpoint inputC3.scriptParam
          inputC3.requestId)) :=
  c4_amended inputC3 envOk5 (by decide)

/-- C3 (counterexample): a completed call with the audit store present
attempts a post-write, but that UPDATE writes only the response payload
and the HTTP status — no operation of the call writes a duration, because
this handler computes none and its UPDATE statement has no such column. -/
theorem c3_counterexample :
    (handleHook inputC3 envOk5).dbOps =
      [.insert "src" "contact-verify" "sp2" "rid-2",
       .update (.obj [("done", .bool true)]) 201 none 5] ∧
    (handleHook inputC3 envOk5).dbOps.any updateWritesDuration = false := by
  decide

/-- C3 (amended): for every completed remote invocation with the audit
store present and a successful pre-write, the handler attempts exactly one
post-write, updating the response payload and the HTTP status, keyed by
the row id the pre-write returned (the row that carries the call's
`requestId`); no elapsed duration is measured or written by this handler. -/
theorem c3_amended (inp : HookInput) (env : AuditEnv) (p : ℤ × JSVal) (rowId : ℕ)
    (hok : inp.fmOutcome = .ok p) (hne : inp.endpoint ≠ "other-hooks")
    (hpre : env.pre = .ok rowId) (hid : rowId ≠ 0) :
    (handleHook inp env).dbOps =
      [.insert inp.sourceHost inp.endpoint inp.scriptParam inp.requestId,
       .update p.2 p.1 none rowId] := by
  cases p with
  | mk fs fb =>
    simp [handleHook, hne, hok, hpre, insertedId, hid, poolPresent]

/-- C3 (witness): the amended statement applied to a completed call. -/
theorem c3_amended_witness :
    (handleHook inputC3 envOk5).dbOps =
      [.insert inputC3.sourceHost inputC3.endpoint inputC3.scriptParam inputC3.requestId,
       .update ((201 : ℤ), JSVal.obj [("done", .bool true)]).2
         ((201 : ℤ), JSVal.obj [("done", .bool true)]).1 none 5] :=
  c3_amended inputC3 envOk5 (201, .obj [("done", .bool true)]) 5
    rfl (by decide) (by decide) (by decide)

/-- C8: the caller-visible response — status, body and correlation header —
and the number of outbound invocations are identical across every
behaviour of the audit store: absent, failing pre-write, failing
post-write, or all writes succeeding.  Audit errors are swallowed and the
pre-write outcome never blocks the remote invocation. -/
theorem c8_auditIsolation (inp : HookInput) (e1 e2 : AuditEnv) :
    visibleOutcome (handleHook inp e1) = visibleOutcome (handleHook inp e2) ∧
    (handleHook inp e1).fmCalls = (handleHook inp e2).fmCalls := by
  by_cases h : inp.endpoint = "other-hooks"
  · simp [handleHook, h, visibleOutcome]
  · cases hfo : inp.fmOutcome with
    | ok p => cases p; simp [handleHook, h, hfo, visibleOutcome]
    | error msg => simp [handleHook, h, hfo, visibleOutcome]

/-- C9: a call whose endpoint is `other-hooks` performs no outbound
invocation and is answered 200 with the static acknowledgement body —
status `ok`, channel `other-hooks`, the branch note — with the correlation
id merged into the body and set as the `X-Request-Id` header. -/
theorem c9_otherHooks (inp : HookInput) (env : AuditEnv)
    (h : inp.endpoint = "other-hooks") :
    (handleHook inp env).fmCalls = 0 ∧
    (handleHook inp env).status = 200 ∧
    (handleHook inp env).header = some inp.requestId ∧
    (handleHook inp env).body =
      .obj [("status", .str "ok"), ("channel", .str "other-hooks"),
            ("note", .str "Handled by other-hooks branch"),
            ("requestId", .str inp.requestId)] := by
  obtain ⟨ep, rid, sh, sp, fo⟩ := inp
  simp only at h
  subst h
  exact ⟨rfl, rfl, rfl, rfl⟩

/-- C9 (witness): the statement applied to a concrete `other-hooks` call. -/
theorem c9_otherHooks_witness :
    (handleHook inputD envOk5).fmCalls = 0 ∧
    (handleHook inputD envOk5).status = 200 ∧
    (handleHook inputD envOk5).header = some inputD.requestId ∧
    (handleHook inputD envOk5).body =
      .obj [("status", .str "ok"), ("channel", .str "other-hooks"),
            ("note", .str "Handled by other-hooks branch"),
            ("requestId", .str inputD.requestId)] :=
  c9_otherHooks inputD envOk5 (by decide)

/-! Claims about the metrics. -/

/-- C2 (counterexample): after one admitted call that reaches the FAILED
branch, `requestCount` and `remoteErrorCount` are 1 as the claim says, but
the latency histogram received no increment, although one call reached
COMPLETED-or-FAILED — the failure branch skips the latency observation. -/
theorem c2_counterexample :
    (runMetrics [MCall.fmFail]).requestCount = 1 ∧
    (runMetrics [MCall.fmFail]).fmErrorCount = 1 ∧
    histSum (runMetrics [MCall.fmFail]) = 0 ∧
    histSum (runMetrics [MCall.fmFail]) ≠ [MCall.fmFail].length := by
  decide

/-- C2 (amended): after N admitted calls of which M reach the FAILED
branch, `requestCount = N` and `remoteErrorCount = M` — the request counter
is bumped exactly once per admitted call, on every branch — but the sum of
latency-histogram increments equals the number of calls that reached
COMPLETED, i.e. `N - M`: the FAILED branch increments only the error
counter and skips the latency observation. -/
theorem c2_metrics (calls : List MCall) :
    (runMetrics calls).requestCount = calls.length ∧
    (runMetrics calls).fmErrorCount = failedCount calls ∧
    histSum (runMetrics calls) = completedCount calls ∧
    completedCount calls + failedCount calls = calls.length := by
  obtain ⟨h1, h2, h3, _⟩ := runMetricsAux calls initialMetrics (by decide)
  refine ⟨?_, ?_, ?_, completed_add_failed calls⟩
  · rw [runMetrics, h1]
    simp [initialMetrics]
  · rw [runMetrics, h2]
    simp [initialMetrics]
  · rw [runMetrics, h3]
    simp [histSum, initialMetrics]

/-! The redirect route. -/

/-- C10: every POST to a single-segment non-`/hooks` path is answered with
a 307 redirect (method- and body-preserving) to `/hooks/<endpoint>`, the
original query string re-attached when non-empty, with no outbound
invocation and no audit write. -/
theorem c10_redirect (endpoint originalUrl : String) :
    (handleDefaultRoute endpoint originalUrl).status = 307 ∧
    (handleDefaultRoute endpoint originalUrl).fmCalls = 0 ∧
    (handleDefaultRoute endpoint originalUrl).dbOps = [] ∧
    (∀ q : String, redirectQuery originalUrl = some q → q ≠ "" →
      (handleDefaultRoute endpoint originalUrl).location =
        "/hooks/" ++ endpoint ++ "?" ++ q) ∧
    (redirectQuery originalUrl = some "" →
      (handleDefaultRoute endpoint originalUrl).location = "/hooks/" ++ endpoint) ∧
    (redirectQuery originalUrl = none →
      (handleDefaultRoute endpoint originalUrl).location = "/hooks/" ++ endpoint) := by
  refine ⟨rfl, rfl, rfl, ?_, ?_, ?_⟩
  · intro q hq hne
    simp [handleDefaultRoute, hq, hne, String.append_assoc]
  · intro hq
    simp [handleDefaultRoute, hq]
  · intro hq
    simp [handleDefaultRoute, hq]

end FmWebhooks
